import Mathlib

/-!
Verification of the manga-rs acquisition core against its specification.

The Rust sources are shallowly embedded:
* `src/viewer/giga/solver.rs` — the geometric tile-permutation solver, with
  image buffers as dimensioned pixel maps and the imperative swap loops as
  folds over coordinate ranges;
* `src/viewer/fuz/crypto.rs` — AES-CBC decryption plumbing, parameterised by
  the external block cipher (the `aes` crate), with panics of
  `GenericArray::from_slice` / `clone_from_slice` made explicit as a
  `crashed` outcome;
* `src/viewer/giga/pipeline.rs`, `src/viewer/fuz/pipeline.rs` — the
  scatter/gather download pipelines; unordered concurrent completion is
  modelled by quantifying over the completion-order permutation of the
  index-tagged results;
* `src/io/raw.rs`, `src/io/zip.rs` — the writers' error plumbing;
* `src/viewer/giga/data.rs`, `src/viewer/fuz/data.rs` — page-index
  assignment, and `src/viewer/giga/viewer.rs`, `src/viewer/fuz/viewer.rs`,
  `src/main.rs` — the episode locator.
-/

namespace Giga

/-- Embeds `Rgb<u8>` pixel: three channel bytes. -/
def Pixel : Type := Nat × Nat × Nat

instance : DecidableEq Pixel := by
  unfold Pixel
  infer_instance

/-- Embeds `image::ImageBuffer<Rgb<u8>, Vec<u8>>`: dimensions plus a pixel map.
The pixel map is total; the solver only ever reads and writes coordinates
inside the `numCells * cellSize` extent, which is within bounds. -/
structure Buffer where
  width : Nat
  height : Nat
  pix : Nat → Nat → Pixel

/-- Embeds `const NUM_CELLS: u8 = 4` in `giga/solver.rs`. -/
def numCells : Nat := 4

/-- Embeds `const DIVISIBLE_WITH: u8 = 8` in `giga/solver.rs`. -/
def divisibleWith : Nat := 8

/-- Embeds `img.get_pixel(x, y)`. -/
def getPixel (img : Buffer) (x y : Nat) : Pixel := img.pix x y

/-- Embeds `img.put_pixel(x, y, p)`. -/
def putPixel (img : Buffer) (x y : Nat) (p : Pixel) : Buffer :=
  { img with pix := fun a b => if a = x ∧ b = y then p else img.pix a b }

/-- One iteration of the inner loop body of `Solver::swap_regions`:
read the source and target pixels, then write each to the other position. -/
def swapStep (sx sy tx ty : Nat) (img : Buffer) (x y : Nat) : Buffer :=
  let sourcePixel := getPixel img (sx + x) (sy + y)
  let targetPixel := getPixel img (tx + x) (ty + y)
  putPixel (putPixel img (sx + x) (sy + y) targetPixel) (tx + x) (ty + y) sourcePixel

/-- Embeds `Solver::swap_regions(img, source_tl, target_tl, width, height)`:
the nested `for x in 0..width { for y in 0..height { ... } }` loop. -/
def swap_regions (img : Buffer) (sourceTl targetTl : Nat × Nat) (width height : Nat) : Buffer :=
  (List.range width).foldl
    (fun img x => (List.range height).foldl
      (fun img y => swapStep sourceTl.1 sourceTl.2 targetTl.1 targetTl.2 img x y) img)
    img

/-- The cell-size computation of `Solver::solve_buffer`:
`width / (num_cells * divisible_with) * divisible_with`. -/
def cellSize (dim : Nat) : Nat := dim / (numCells * divisibleWith) * divisibleWith

/-- Embeds `Solver::solve_buffer`: partition into a `numCells × numCells` grid and
swap region `(i*cell_width, j*cell_height)` with `(j*cell_width, i*cell_height)`
for every pair with `i < j` (the `j <= i` pairs are skipped by `continue`). -/
def solve_buffer (buffer : Buffer) : Buffer :=
  let cellWidth := cellSize buffer.width
  let cellHeight := cellSize buffer.height
  (List.range numCells).foldl
    (fun img i => (List.range numCells).foldl
      (fun img j =>
        if j ≤ i then img
        else swap_regions img (i * cellWidth, j * cellHeight) (j * cellWidth, i * cellHeight)
          cellWidth cellHeight) img)
    buffer

/-- The loop of `swap_regions`, as a single fold over the list of visited
`(x, y)` offsets. -/
def swapFold (sx sy tx ty : Nat) (L : List (Nat × Nat)) (b : Buffer) : Buffer :=
  L.foldl (fun img q => swapStep sx sy tx ty img q.1 q.2) b

lemma swap_regions_eq_swapFold (img : Buffer) (sx sy tx ty w h : Nat) :
    swap_regions img (sx, sy) (tx, ty) w h =
      swapFold sx sy tx ty ((List.range w).product (List.range h)) img := by
  rw [swap_regions, swapFold, List.product]
  induction (List.range w) generalizing img with
  | nil => rfl
  | cons x xs ih =>
    rw [List.foldl_cons, List.flatMap_cons, List.foldl_append, List.foldl_map, ih]

lemma swapStep_pix (sx sy tx ty x y a c : Nat) (b : Buffer) :
    (swapStep sx sy tx ty b x y).pix a c =
      if a = tx + x ∧ c = ty + y then b.pix (sx + x) (sy + y)
      else if a = sx + x ∧ c = sy + y then b.pix (tx + x) (ty + y)
      else b.pix a c := rfl

lemma swapStep_width (sx sy tx ty x y : Nat) (b : Buffer) :
    (swapStep sx sy tx ty b x y).width = b.width := rfl

lemma swapStep_height (sx sy tx ty x y : Nat) (b : Buffer) :
    (swapStep sx sy tx ty b x y).height = b.height := rfl

lemma swapFold_width (sx sy tx ty : Nat) (L : List (Nat × Nat)) (b : Buffer) :
    (swapFold sx sy tx ty L b).width = b.width := by
  induction L generalizing b with
  | nil => rfl
  | cons q L ih => exact ih (swapStep sx sy tx ty b q.1 q.2)

lemma swapFold_height (sx sy tx ty : Nat) (L : List (Nat × Nat)) (b : Buffer) :
    (swapFold sx sy tx ty L b).height = b.height := by
  induction L generalizing b with
  | nil => rfl
  | cons q L ih => exact ih (swapStep sx sy tx ty b q.1 q.2)

/-- A pixel that is neither a source nor a target point of any visited offset
is untouched by the swap loop. -/
lemma swapFold_pix_untouched (sx sy tx ty : Nat) (L : List (Nat × Nat)) (b : Buffer)
    (a c : Nat)
    (hs : ∀ q ∈ L, ¬(a = sx + q.1 ∧ c = sy + q.2))
    (ht : ∀ q ∈ L, ¬(a = tx + q.1 ∧ c = ty + q.2)) :
    (swapFold sx sy tx ty L b).pix a c = b.pix a c := by
  induction L generalizing b with
  | nil => rfl
  | cons q L ih =>
    show (swapFold sx sy tx ty L (swapStep sx sy tx ty b q.1 q.2)).pix a c = b.pix a c
    rw [ih (swapStep sx sy tx ty b q.1 q.2)
      (fun p hp => hs p (List.mem_cons_of_mem _ hp))
      (fun p hp => ht p (List.mem_cons_of_mem _ hp)),
      swapStep_pix, if_neg (ht q (List.mem_cons_self _ _)),
      if_neg (hs q (List.mem_cons_self _ _))]

/-- After the swap loop, the source point of a visited offset holds the
original target pixel, provided sources and targets never collide. -/
lemma swapFold_pix_source (sx sy tx ty : Nat) (L : List (Nat × Nat)) (b : Buffer)
    (q : Nat × Nat) (hq : q ∈ L) (hnd : L.Nodup)
    (hdisj : ∀ p p', p ∈ L → p' ∈ L → ¬(sx + p.1 = tx + p'.1 ∧ sy + p.2 = ty + p'.2)) :
    (swapFold sx sy tx ty L b).pix (sx + q.1) (sy + q.2) = b.pix (tx + q.1) (ty + q.2) := by
  induction L generalizing b with
  | nil => cases hq
  | cons q0 L ih =>
    have hq0L : q0 ∉ L := (List.nodup_cons.mp hnd).1
    show (swapFold sx sy tx ty L (swapStep sx sy tx ty b q0.1 q0.2)).pix _ _ = _
    rcases List.mem_cons.mp hq with rfl | hqL
    · rw [swapFold_pix_untouched]
      · rw [swapStep_pix,
          if_neg (fun hc => hdisj q q (List.mem_cons_self _ _) (List.mem_cons_self _ _) hc),
          if_pos ⟨rfl, rfl⟩]
      · intro p hp hc
        exact hq0L (by
          have h1 : p.1 = q.1 := by omega
          have h2 : p.2 = q.2 := by omega
          rwa [show q = p from Prod.ext h1.symm h2.symm])
      · intro p hp hc
        exact hdisj q p (List.mem_cons_self _ _) (List.mem_cons_of_mem _ hp) hc
    · rw [ih _ hqL (List.nodup_cons.mp hnd).2
        (fun p p' hp hp' => hdisj p p' (List.mem_cons_of_mem _ hp) (List.mem_cons_of_mem _ hp')),
        swapStep_pix,
        if_neg (fun hc => hq0L (by
          have h1 : q.1 = q0.1 := by omega
          have h2 : q.2 = q0.2 := by omega
          rwa [show q0 = q from Prod.ext h1.symm h2.symm])),
        if_neg (fun hc => hdisj q0 q (List.mem_cons_self _ _) (List.mem_cons_of_mem _ hqL)
          ⟨hc.1.symm, hc.2.symm⟩)]

/-- After the swap loop, the target point of a visited offset holds the
original source pixel. -/
lemma swapFold_pix_target (sx sy tx ty : Nat) (L : List (Nat × Nat)) (b : Buffer)
    (q : Nat × Nat) (hq : q ∈ L) (hnd : L.Nodup)
    (hdisj : ∀ p p', p ∈ L → p' ∈ L → ¬(sx + p.1 = tx + p'.1 ∧ sy + p.2 = ty + p'.2)) :
    (swapFold sx sy tx ty L b).pix (tx + q.1) (ty + q.2) = b.pix (sx + q.1) (sy + q.2) := by
  induction L generalizing b with
  | nil => cases hq
  | cons q0 L ih =>
    have hq0L : q0 ∉ L := (List.nodup_cons.mp hnd).1
    show (swapFold sx sy tx ty L (swapStep sx sy tx ty b q0.1 q0.2)).pix _ _ = _
    rcases List.mem_cons.mp hq with rfl | hqL
    · rw [swapFold_pix_untouched]
      · rw [swapStep_pix, if_pos ⟨rfl, rfl⟩]
      · intro p hp hc
        exact hdisj p q (List.mem_cons_of_mem _ hp) (List.mem_cons_self _ _)
          ⟨hc.1.symm, hc.2.symm⟩
      · intro p hp hc
        exact hq0L (by
          have h1 : p.1 = q.1 := by omega
          have h2 : p.2 = q.2 := by omega
          rwa [show q = p from Prod.ext h1.symm h2.symm])
    · rw [ih _ hqL (List.nodup_cons.mp hnd).2
        (fun p p' hp hp' => hdisj p p' (List.mem_cons_of_mem _ hp) (List.mem_cons_of_mem _ hp')),
        swapStep_pix,
        if_neg (fun hc => hdisj q q0 (List.mem_cons_of_mem _ hqL) (List.mem_cons_self _ _) hc),
        if_neg (fun hc => hq0L (by
          have h1 : q.1 = q0.1 := by omega
          have h2 : q.2 = q0.2 := by omega
          rwa [show q0 = q from Prod.ext h1.symm h2.symm]))]

lemma mem_rangeProd {w h : Nat} {q : Nat × Nat} :
    q ∈ (List.range w).product (List.range h) ↔ q.1 < w ∧ q.2 < h := by
  obtain ⟨a, c⟩ := q
  show (a, c) ∈ (List.range w) ×ˢ (List.range h) ↔ _
  simp [List.mem_product]

lemma nodup_rangeProd (w h : Nat) : ((List.range w).product (List.range h)).Nodup :=
  List.Nodup.product (List.nodup_range w) (List.nodup_range h)

/-- Points of distinct grid columns are separated. -/
lemma cell_sep {i j c : Nat} (a e : Nat) (hij : i < j) (ha : a < c) :
    i * c + a < j * c + e :=
  calc i * c + a < i * c + c := Nat.add_lt_add_left ha _
  _ = (i + 1) * c := by ring
  _ ≤ j * c := Nat.mul_le_mul_right c hij
  _ ≤ j * c + e := Nat.le_add_right _ _

lemma div_of_cell {c i z : Nat} (h1 : i * c ≤ z) (h2 : z < i * c + c) : z / c = i :=
  Nat.div_eq_of_lt_le h1 (by rw [add_one_mul]; exact h2)

lemma cell_le_of_div {c i z : Nat} (h : z / c = i) : i * c ≤ z := by
  rw [← h]
  exact Nat.div_mul_le_self z c

lemma cell_lt_of_div {c i z : Nat} (hc : 0 < c) (h : z / c = i) : z < i * c + c := by
  conv_lhs => rw [← Nat.div_add_mod z c]
  rw [h, mul_comm]
  exact Nat.add_lt_add_left (Nat.mod_lt _ hc) _

lemma div_mul_add_mod {c : Nat} (hc : 0 < c) (i x : Nat) : (i * c + x % c) / c = i := by
  rw [mul_comm, Nat.mul_add_div hc, Nat.div_eq_of_lt (Nat.mod_lt _ hc), Nat.add_zero]

lemma mod_mul_add_mod {c : Nat} (hc : 0 < c) (i x : Nat) : (i * c + x % c) % c = x % c := by
  rw [mul_comm, Nat.mul_add_mod, Nat.mod_eq_of_lt (Nat.mod_lt _ hc)]

lemma swap_regions_pix_src (b : Buffer) (i j cw ch dx dy : Nat) (hij : i < j)
    (hdx : dx < cw) (hdy : dy < ch) :
    (swap_regions b (i * cw, j * ch) (j * cw, i * ch) cw ch).pix (i * cw + dx) (j * ch + dy)
      = b.pix (j * cw + dx) (i * ch + dy) := by
  rw [swap_regions_eq_swapFold]
  exact swapFold_pix_source _ _ _ _ _ b (dx, dy) (mem_rangeProd.mpr ⟨hdx, hdy⟩)
    (nodup_rangeProd cw ch)
    (fun p p' hp hp' hc =>
      absurd hc.1 (Nat.ne_of_lt (cell_sep _ _ hij (mem_rangeProd.mp hp).1)))

lemma swap_regions_pix_tgt (b : Buffer) (i j cw ch dx dy : Nat) (hij : i < j)
    (hdx : dx < cw) (hdy : dy < ch) :
    (swap_regions b (i * cw, j * ch) (j * cw, i * ch) cw ch).pix (j * cw + dx) (i * ch + dy)
      = b.pix (i * cw + dx) (j * ch + dy) := by
  rw [swap_regions_eq_swapFold]
  exact swapFold_pix_target _ _ _ _ _ b (dx, dy) (mem_rangeProd.mpr ⟨hdx, hdy⟩)
    (nodup_rangeProd cw ch)
    (fun p p' hp hp' hc =>
      absurd hc.1 (Nat.ne_of_lt (cell_sep _ _ hij (mem_rangeProd.mp hp).1)))

lemma swap_regions_pix_skip (b : Buffer) (i j cw ch x y : Nat)
    (hs : ∀ dx dy, dx < cw → dy < ch → ¬(x = i * cw + dx ∧ y = j * ch + dy))
    (ht : ∀ dx dy, dx < cw → dy < ch → ¬(x = j * cw + dx ∧ y = i * ch + dy)) :
    (swap_regions b (i * cw, j * ch) (j * cw, i * ch) cw ch).pix x y = b.pix x y := by
  rw [swap_regions_eq_swapFold]
  exact swapFold_pix_untouched _ _ _ _ _ b x y
    (fun q hq => hs q.1 q.2 (mem_rangeProd.mp hq).1 (mem_rangeProd.mp hq).2)
    (fun q hq => ht q.1 q.2 (mem_rangeProd.mp hq).1 (mem_rangeProd.mp hq).2)

/-- Pointwise effect of one `swap_regions` call for the cell pair `(i, j)`,
phrased through grid coordinates `x / cw`, `y / ch`. -/
lemma swap_regions_pix_cells {cw ch : Nat} (hcw : 0 < cw) (hch : 0 < ch)
    (i j : Nat) (hij : i < j) (b : Buffer) (x y : Nat) :
    (swap_regions b (i * cw, j * ch) (j * cw, i * ch) cw ch).pix x y =
      if x / cw = i ∧ y / ch = j then b.pix (j * cw + x % cw) (i * ch + y % ch)
      else if x / cw = j ∧ y / ch = i then b.pix (i * cw + x % cw) (j * ch + y % ch)
      else b.pix x y := by
  by_cases h1 : x / cw = i ∧ y / ch = j
  · rw [if_pos h1]
    have hx : x = i * cw + x % cw := by
      conv_lhs => rw [← Nat.div_add_mod x cw]
      rw [h1.1, mul_comm]
    have hy : y = j * ch + y % ch := by
      conv_lhs => rw [← Nat.div_add_mod y ch]
      rw [h1.2, mul_comm]
    have hmain := swap_regions_pix_src b i j cw ch (x % cw) (y % ch) hij
      (Nat.mod_lt _ hcw) (Nat.mod_lt _ hch)
    rw [← hx, ← hy] at hmain
    exact hmain
  · by_cases h2 : x / cw = j ∧ y / ch = i
    · rw [if_neg h1, if_pos h2]
      have hx : x = j * cw + x % cw := by
        conv_lhs => rw [← Nat.div_add_mod x cw]
        rw [h2.1, mul_comm]
      have hy : y = i * ch + y % ch := by
        conv_lhs => rw [← Nat.div_add_mod y ch]
        rw [h2.2, mul_comm]
      have hmain := swap_regions_pix_tgt b i j cw ch (x % cw) (y % ch) hij
        (Nat.mod_lt _ hcw) (Nat.mod_lt _ hch)
      rw [← hx, ← hy] at hmain
      exact hmain
    · rw [if_neg h1, if_neg h2]
      apply swap_regions_pix_skip
      · intro dx dy hdx hdy hc
        exact h1 ⟨div_of_cell (hc.1 ▸ Nat.le_add_right _ _)
            (hc.1 ▸ Nat.add_lt_add_left hdx _),
          div_of_cell (hc.2 ▸ Nat.le_add_right _ _) (hc.2 ▸ Nat.add_lt_add_left hdy _)⟩
      · intro dx dy hdx hdy hc
        exact h2 ⟨div_of_cell (hc.1 ▸ Nat.le_add_right _ _)
            (hc.1 ▸ Nat.add_lt_add_left hdx _),
          div_of_cell (hc.2 ▸ Nat.le_add_right _ _) (hc.2 ▸ Nat.add_lt_add_left hdy _)⟩

lemma swap_regions_zero_w (b : Buffer) (s t : Nat × Nat) (h : Nat) :
    swap_regions b s t 0 h = b := rfl

lemma swap_regions_zero_h (b : Buffer) (s t : Nat × Nat) (w : Nat) :
    swap_regions b s t w 0 = b := by
  obtain ⟨sx, sy⟩ := s
  obtain ⟨tx, ty⟩ := t
  rw [swap_regions_eq_swapFold]
  have hnil : (List.range w).product (List.range 0) = [] := by
    simp [List.product]
  rw [hnil]
  rfl

/-- The mirror permutation on pixel positions that `solve_buffer` realises:
inside the `numCells * cell` extent, a pixel in off-diagonal cell
`(x / cw, y / ch)` comes from the mirrored cell; every other pixel stays. -/
def permMap (cw ch x y : Nat) : Nat × Nat :=
  if x < numCells * cw ∧ y < numCells * ch ∧ x / cw ≠ y / ch
  then (y / ch * cw + x % cw, x / cw * ch + y % ch)
  else (x, y)

lemma solve_buffer_eq_chain (b : Buffer) :
    solve_buffer b =
      swap_regions (swap_regions (swap_regions (swap_regions (swap_regions (swap_regions b
        (0 * cellSize b.width, 1 * cellSize b.height)
        (1 * cellSize b.width, 0 * cellSize b.height) (cellSize b.width) (cellSize b.height))
        (0 * cellSize b.width, 2 * cellSize b.height)
        (2 * cellSize b.width, 0 * cellSize b.height) (cellSize b.width) (cellSize b.height))
        (0 * cellSize b.width, 3 * cellSize b.height)
        (3 * cellSize b.width, 0 * cellSize b.height) (cellSize b.width) (cellSize b.height))
        (1 * cellSize b.width, 2 * cellSize b.height)
        (2 * cellSize b.width, 1 * cellSize b.height) (cellSize b.width) (cellSize b.height))
        (1 * cellSize b.width, 3 * cellSize b.height)
        (3 * cellSize b.width, 1 * cellSize b.height) (cellSize b.width) (cellSize b.height))
        (2 * cellSize b.width, 3 * cellSize b.height)
        (3 * cellSize b.width, 2 * cellSize b.height) (cellSize b.width) (cellSize b.height) :=
  rfl

lemma swap_regions_width (b : Buffer) (s t : Nat × Nat) (w h : Nat) :
    (swap_regions b s t w h).width = b.width := by
  obtain ⟨sx, sy⟩ := s
  obtain ⟨tx, ty⟩ := t
  rw [swap_regions_eq_swapFold]
  exact swapFold_width _ _ _ _ _ b

lemma swap_regions_height (b : Buffer) (s t : Nat × Nat) (w h : Nat) :
    (swap_regions b s t w h).height = b.height := by
  obtain ⟨sx, sy⟩ := s
  obtain ⟨tx, ty⟩ := t
  rw [swap_regions_eq_swapFold]
  exact swapFold_height _ _ _ _ _ b

lemma solve_buffer_width (b : Buffer) : (solve_buffer b).width = b.width := by
  rw [solve_buffer_eq_chain]
  simp [swap_regions_width]

lemma solve_buffer_height (b : Buffer) : (solve_buffer b).height = b.height := by
  rw [solve_buffer_eq_chain]
  simp [swap_regions_height]

lemma swapPass {cw ch : Nat} (hcw : 0 < cw) (hch : 0 < ch)
    (i j : Nat) (hij : i < j) (b : Buffer) (u v : Nat)
    (hn1 : ¬(u / cw = i ∧ v / ch = j)) (hn2 : ¬(u / cw = j ∧ v / ch = i)) :
    (swap_regions b (i * cw, j * ch) (j * cw, i * ch) cw ch).pix u v = b.pix u v := by
  rw [swap_regions_pix_cells hcw hch i j hij b u v, if_neg hn1, if_neg hn2]

lemma swapHitS {cw ch : Nat} (hcw : 0 < cw) (hch : 0 < ch)
    (i j : Nat) (hij : i < j) (b : Buffer) (u v : Nat)
    (h1 : u / cw = i) (h2 : v / ch = j) :
    (swap_regions b (i * cw, j * ch) (j * cw, i * ch) cw ch).pix u v =
      b.pix (j * cw + u % cw) (i * ch + v % ch) := by
  rw [swap_regions_pix_cells hcw hch i j hij b u v, if_pos ⟨h1, h2⟩]

lemma swapHitT {cw ch : Nat} (hcw : 0 < cw) (hch : 0 < ch)
    (i j : Nat) (hij : i < j) (b : Buffer) (u v : Nat)
    (h1 : u / cw = j) (h2 : v / ch = i) :
    (swap_regions b (i * cw, j * ch) (j * cw, i * ch) cw ch).pix u v =
      b.pix (i * cw + u % cw) (j * ch + v % ch) := by
  have hn1 : ¬(u / cw = i ∧ v / ch = j) := fun hc =>
    Nat.ne_of_lt hij (hc.1.symm.trans h1)
  rw [swap_regions_pix_cells hcw hch i j hij b u v, if_neg hn1, if_pos ⟨h1, h2⟩]

/-- Pointwise characterisation of `Solver::solve_buffer`: the output pixel at
`(x, y)` is the input pixel at `permMap cw ch x y`. -/
theorem solve_buffer_pix (b : Buffer) (x y : Nat) :
    (solve_buffer b).pix x y =
      b.pix (permMap (cellSize b.width) (cellSize b.height) x y).1
        (permMap (cellSize b.width) (cellSize b.height) x y).2 := by
  rw [solve_buffer_eq_chain]
  generalize cellSize b.width = cw
  generalize cellSize b.height = ch
  rcases Nat.eq_zero_or_pos cw with rfl | hcw
  · simp [swap_regions_zero_w, permMap, numCells]
  rcases Nat.eq_zero_or_pos ch with rfl | hch
  · simp [swap_regions_zero_h, permMap, numCells]
  by_cases hx4 : x / cw < 4
  on_goal 2 =>
    have hp : ∀ (i j : Nat), ¬(x / cw = i ∧ y / ch = j) ∨ True := fun i j => Or.inr trivial
    have hn : ∀ i : Nat, i < 4 → x / cw ≠ i := fun i hi hc => hx4 (hc ▸ hi)
    rw [swapPass hcw hch 2 3 (by decide) _ x y (fun hc => hn 2 (by decide) hc.1)
        (fun hc => hn 3 (by decide) hc.1),
      swapPass hcw hch 1 3 (by decide) _ x y (fun hc => hn 1 (by decide) hc.1)
        (fun hc => hn 3 (by decide) hc.1),
      swapPass hcw hch 1 2 (by decide) _ x y (fun hc => hn 1 (by decide) hc.1)
        (fun hc => hn 2 (by decide) hc.1),
      swapPass hcw hch 0 3 (by decide) _ x y (fun hc => hn 0 (by decide) hc.1)
        (fun hc => hn 3 (by decide) hc.1),
      swapPass hcw hch 0 2 (by decide) _ x y (fun hc => hn 0 (by decide) hc.1)
        (fun hc => hn 2 (by decide) hc.1),
      swapPass hcw hch 0 1 (by decide) _ x y (fun hc => hn 0 (by decide) hc.1)
        (fun hc => hn 1 (by decide) hc.1)]
    have hguard : ¬(x < numCells * cw ∧ y < numCells * ch ∧ x / cw ≠ y / ch) := fun hc =>
      hx4 ((Nat.div_lt_iff_lt_mul hcw).mpr hc.1)
    rw [permMap, if_neg hguard]
  by_cases hy4 : y / ch < 4
  on_goal 2 =>
    have hn : ∀ j : Nat, j < 4 → y / ch ≠ j := fun j hj hc => hy4 (hc ▸ hj)
    rw [swapPass hcw hch 2 3 (by decide) _ x y (fun hc => hn 3 (by decide) hc.2)
        (fun hc => hn 2 (by decide) hc.2),
      swapPass hcw hch 1 3 (by decide) _ x y (fun hc => hn 3 (by decide) hc.2)
        (fun hc => hn 1 (by decide) hc.2),
      swapPass hcw hch 1 2 (by decide) _ x y (fun hc => hn 2 (by decide) hc.2)
        (fun hc => hn 1 (by decide) hc.2),
      swapPass hcw hch 0 3 (by decide) _ x y (fun hc => hn 3 (by decide) hc.2)
        (fun hc => hn 0 (by decide) hc.2),
      swapPass hcw hch 0 2 (by decide) _ x y (fun hc => hn 2 (by decide) hc.2)
        (fun hc => hn 0 (by decide) hc.2),
      swapPass hcw hch 0 1 (by decide) _ x y (fun hc => hn 1 (by decide) hc.2)
        (fun hc => hn 0 (by decide) hc.2)]
    have hguard : ¬(x < numCells * cw ∧ y < numCells * ch ∧ x / cw ≠ y / ch) := fun hc =>
      hy4 ((Nat.div_lt_iff_lt_mul hch).mpr hc.2.1)
    rw [permMap, if_neg hguard]
  by_cases hab : x / cw = y / ch
  · have hn : ∀ i j : Nat, i ≠ j → ¬(x / cw = i ∧ y / ch = j) := fun i j hij hc =>
      hij (hc.1.symm.trans (hab.trans hc.2))
    rw [swapPass hcw hch 2 3 (by decide) _ x y (hn 2 3 (by decide)) (hn 3 2 (by decide)),
      swapPass hcw hch 1 3 (by decide) _ x y (hn 1 3 (by decide)) (hn 3 1 (by decide)),
      swapPass hcw hch 1 2 (by decide) _ x y (hn 1 2 (by decide)) (hn 2 1 (by decide)),
      swapPass hcw hch 0 3 (by decide) _ x y (hn 0 3 (by decide)) (hn 3 0 (by decide)),
      swapPass hcw hch 0 2 (by decide) _ x y (hn 0 2 (by decide)) (hn 2 0 (by decide)),
      swapPass hcw hch 0 1 (by decide) _ x y (hn 0 1 (by decide)) (hn 1 0 (by decide))]
    have hguard : ¬(x < numCells * cw ∧ y < numCells * ch ∧ x / cw ≠ y / ch) := fun hc =>
      hc.2.2 hab
    rw [permMap, if_neg hguard]
  obtain ⟨A, hA⟩ : ∃ A, x / cw = A := ⟨_, rfl⟩
  obtain ⟨B, hB⟩ : ∃ B, y / ch = B := ⟨_, rfl⟩
  rw [hA] at hx4 hab
  rw [hB] at hy4 hab
  have hx' : x < numCells * cw := by
    rw [show numCells = 4 from rfl]
    exact (Nat.div_lt_iff_lt_mul hcw).mp (by rw [hA]; exact hx4)
  have hy' : y < numCells * ch := by
    rw [show numCells = 4 from rfl]
    exact (Nat.div_lt_iff_lt_mul hch).mp (by rw [hB]; exact hy4)
  have hfin : b.pix (B * cw + x % cw) (A * ch + y % ch) =
      b.pix (permMap cw ch x y).1 (permMap cw ch x y).2 := by
    rw [permMap, if_pos ⟨hx', hy', by rw [hA, hB]; exact hab⟩, hA, hB]
  have hdx : ∀ k : Nat, (k * cw + x % cw) / cw = k := fun k => div_mul_add_mod hcw k x
  have hdy : ∀ k : Nat, (k * ch + y % ch) / ch = k := fun k => div_mul_add_mod hch k y
  have hmx : ∀ k : Nat, (k * cw + x % cw) % cw = x % cw := fun k => mod_mul_add_mod hcw k x
  have hmy : ∀ k : Nat, (k * ch + y % ch) % ch = y % ch := fun k => mod_mul_add_mod hch k y
  interval_cases A <;> interval_cases B
  · exact absurd rfl hab
  · -- cells (0, 1): passes through 23, 13, 12, 03, 02, then source hit at 01
    rw [swapPass hcw hch 2 3 (by decide) _ x y (by rw [hA, hB]; decide)
        (by rw [hA, hB]; decide),
      swapPass hcw hch 1 3 (by decide) _ x y (by rw [hA, hB]; decide)
        (by rw [hA, hB]; decide),
      swapPass hcw hch 1 2 (by decide) _ x y (by rw [hA, hB]; decide)
        (by rw [hA, hB]; decide),
      swapPass hcw hch 0 3 (by decide) _ x y (by rw [hA, hB]; decide)
        (by rw [hA, hB]; decide),
      swapPass hcw hch 0 2 (by decide) _ x y (by rw [hA, hB]; decide)
        (by rw [hA, hB]; decide),
      swapHitS hcw hch 0 1 (by decide) b x y hA hB]
    exact hfin
  · -- cells (0, 2)
    rw [swapPass hcw hch 2 3 (by decide) _ x y (by rw [hA, hB]; decide)
        (by rw [hA, hB]; decide),
      swapPass hcw hch 1 3 (by decide) _ x y (by rw [hA, hB]; decide)
        (by rw [hA, hB]; decide),
      swapPass hcw hch 1 2 (by decide) _ x y (by rw [hA, hB]; decide)
        (by rw [hA, hB]; decide),
      swapPass hcw hch 0 3 (by decide) _ x y (by rw [hA, hB]; decide)
        (by rw [hA, hB]; decide),
      swapHitS hcw hch 0 2 (by decide) _ x y hA hB,
      swapPass hcw hch 0 1 (by decide) b _ _ (by rw [hdx, hdy]; decide)
        (by rw [hdx, hdy]; decide)]
    exact hfin
  · -- cells (0, 3)
    rw [swapPass hcw hch 2 3 (by decide) _ x y (by rw [hA, hB]; decide)
        (by rw [hA, hB]; decide),
      swapPass hcw hch 1 3 (by decide) _ x y (by rw [hA, hB]; decide)
        (by rw [hA, hB]; decide),
      swapPass hcw hch 1 2 (by decide) _ x y (by rw [hA, hB]; decide)
        (by rw [hA, hB]; decide),
      swapHitS hcw hch 0 3 (by decide) _ x y hA hB,
      swapPass hcw hch 0 2 (by decide) _ _ _ (by rw [hdx, hdy]; decide)
        (by rw [hdx, hdy]; decide),
      swapPass hcw hch 0 1 (by decide) b _ _ (by rw [hdx, hdy]; decide)
        (by rw [hdx, hdy]; decide)]
    exact hfin
  · -- cells (1, 0): target hit at 01
    rw [swapPass hcw hch 2 3 (by decide) _ x y (by rw [hA, hB]; decide)
        (by rw [hA, hB]; decide),
      swapPass hcw hch 1 3 (by decide) _ x y (by rw [hA, hB]; decide)
        (by rw [hA, hB]; decide),
      swapPass hcw hch 1 2 (by decide) _ x y (by rw [hA, hB]; decide)
        (by rw [hA, hB]; decide),
      swapPass hcw hch 0 3 (by decide) _ x y (by rw [hA, hB]; decide)
        (by rw [hA, hB]; decide),
      swapPass hcw hch 0 2 (by decide) _ x y (by rw [hA, hB]; decide)
        (by rw [hA, hB]; decide),
      swapHitT hcw hch 0 1 (by decide) b x y hA hB]
    exact hfin
  · exact absurd rfl hab
  · -- cells (1, 2)
    rw [swapPass hcw hch 2 3 (by decide) _ x y (by rw [hA, hB]; decide)
        (by rw [hA, hB]; decide),
      swapPass hcw hch 1 3 (by decide) _ x y (by rw [hA, hB]; decide)
        (by rw [hA, hB]; decide),
      swapHitS hcw hch 1 2 (by decide) _ x y hA hB,
      swapPass hcw hch 0 3 (by decide) _ _ _ (by rw [hdx, hdy]; decide)
        (by rw [hdx, hdy]; decide),
      swapPass hcw hch 0 2 (by decide) _ _ _ (by rw [hdx, hdy]; decide)
        (by rw [hdx, hdy]; decide),
      swapPass hcw hch 0 1 (by decide) b _ _ (by rw [hdx, hdy]; decide)
        (by rw [hdx, hdy]; decide)]
    exact hfin
  · -- cells (1, 3)
    rw [swapPass hcw hch 2 3 (by decide) _ x y (by rw [hA, hB]; decide)
        (by rw [hA, hB]; decide),
      swapHitS hcw hch 1 3 (by decide) _ x y hA hB,
      swapPass hcw hch 1 2 (by decide) _ _ _ (by rw [hdx, hdy]; decide)
        (by rw [hdx, hdy]; decide),
      swapPass hcw hch 0 3 (by decide) _ _ _ (by rw [hdx, hdy]; decide)
        (by rw [hdx, hdy]; decide),
      swapPass hcw hch 0 2 (by decide) _ _ _ (by rw [hdx, hdy]; decide)
        (by rw [hdx, hdy]; decide),
      swapPass hcw hch 0 1 (by decide) b _ _ (by rw [hdx, hdy]; decide)
        (by rw [hdx, hdy]; decide)]
    exact hfin
  · -- cells (2, 0): target hit at 02
    rw [swapPass hcw hch 2 3 (by decide) _ x y (by rw [hA, hB]; decide)
        (by rw [hA, hB]; decide),
      swapPass hcw hch 1 3 (by decide) _ x y (by rw [hA, hB]; decide)
        (by rw [hA, hB]; decide),
      swapPass hcw hch 1 2 (by decide) _ x y (by rw [hA, hB]; decide)
        (by rw [hA, hB]; decide),
      swapPass hcw hch 0 3 (by decide) _ x y (by rw [hA, hB]; decide)
        (by rw [hA, hB]; decide),
      swapHitT hcw hch 0 2 (by decide) _ x y hA hB,
      swapPass hcw hch 0 1 (by decide) b _ _ (by rw [hdx, hdy]; decide)
        (by rw [hdx, hdy]; decide)]
    exact hfin
  · -- cells (2, 1): target hit at 12
    rw [swapPass hcw hch 2 3 (by decide) _ x y (by rw [hA, hB]; decide)
        (by rw [hA, hB]; decide),
      swapPass hcw hch 1 3 (by decide) _ x y (by rw [hA, hB]; decide)
        (by rw [hA, hB]; decide),
      swapHitT hcw hch 1 2 (by decide) _ x y hA hB,
      swapPass hcw hch 0 3 (by decide) _ _ _ (by rw [hdx, hdy]; decide)
        (by rw [hdx, hdy]; decide),
      swapPass hcw hch 0 2 (by decide) _ _ _ (by rw [hdx, hdy]; decide)
        (by rw [hdx, hdy]; decide),
      swapPass hcw hch 0 1 (by decide) b _ _ (by rw [hdx, hdy]; decide)
        (by rw [hdx, hdy]; decide)]
    exact hfin
  · exact absurd rfl hab
  · -- cells (2, 3)
    rw [swapHitS hcw hch 2 3 (by decide) _ x y hA hB,
      swapPass hcw hch 1 3 (by decide) _ _ _ (by rw [hdx, hdy]; decide)
        (by rw [hdx, hdy]; decide),
      swapPass hcw hch 1 2 (by decide) _ _ _ (by rw [hdx, hdy]; decide)
        (by rw [hdx, hdy]; decide),
      swapPass hcw hch 0 3 (by decide) _ _ _ (by rw [hdx, hdy]; decide)
        (by rw [hdx, hdy]; decide),
      swapPass hcw hch 0 2 (by decide) _ _ _ (by rw [hdx, hdy]; decide)
        (by rw [hdx, hdy]; decide),
      swapPass hcw hch 0 1 (by decide) b _ _ (by rw [hdx, hdy]; decide)
        (by rw [hdx, hdy]; decide)]
    exact hfin
  · -- cells (3, 0): target hit at 03
    rw [swapPass hcw hch 2 3 (by decide) _ x y (by rw [hA, hB]; decide)
        (by rw [hA, hB]; decide),
      swapPass hcw hch 1 3 (by decide) _ x y (by rw [hA, hB]; decide)
        (by rw [hA, hB]; decide),
      swapPass hcw hch 1 2 (by decide) _ x y (by rw [hA, hB]; decide)
        (by rw [hA, hB]; decide),
      swapHitT hcw hch 0 3 (by decide) _ x y hA hB,
      swapPass hcw hch 0 2 (by decide) _ _ _ (by rw [hdx, hdy]; decide)
        (by rw [hdx, hdy]; decide),
      swapPass hcw hch 0 1 (by decide) b _ _ (by rw [hdx, hdy]; decide)
        (by rw [hdx, hdy]; decide)]
    exact hfin
  · -- cells (3, 1): target hit at 13
    rw [swapPass hcw hch 2 3 (by decide) _ x y (by rw [hA, hB]; decide)
        (by rw [hA, hB]; decide),
      swapHitT hcw hch 1 3 (by decide) _ x y hA hB,
      swapPass hcw hch 1 2 (by decide) _ _ _ (by rw [hdx, hdy]; decide)
        (by rw [hdx, hdy]; decide),
      swapPass hcw hch 0 3 (by decide) _ _ _ (by rw [hdx, hdy]; decide)
        (by rw [hdx, hdy]; decide),
      swapPass hcw hch 0 2 (by decide) _ _ _ (by rw [hdx, hdy]; decide)
        (by rw [hdx, hdy]; decide),
      swapPass hcw hch 0 1 (by decide) b _ _ (by rw [hdx, hdy]; decide)
        (by rw [hdx, hdy]; decide)]
    exact hfin
  · -- cells (3, 2): target hit at 23
    rw [swapHitT hcw hch 2 3 (by decide) _ x y hA hB,
      swapPass hcw hch 1 3 (by decide) _ _ _ (by rw [hdx, hdy]; decide)
        (by rw [hdx, hdy]; decide),
      swapPass hcw hch 1 2 (by decide) _ _ _ (by rw [hdx, hdy]; decide)
        (by rw [hdx, hdy]; decide),
      swapPass hcw hch 0 3 (by decide) _ _ _ (by rw [hdx, hdy]; decide)
        (by rw [hdx, hdy]; decide),
      swapPass hcw hch 0 2 (by decide) _ _ _ (by rw [hdx, hdy]; decide)
        (by rw [hdx, hdy]; decide),
      swapPass hcw hch 0 1 (by decide) b _ _ (by rw [hdx, hdy]; decide)
        (by rw [hdx, hdy]; decide)]
    exact hfin
  · exact absurd rfl hab

@[ext] lemma Buffer.ext {b1 b2 : Buffer} (hw : b1.width = b2.width)
    (hh : b1.height = b2.height) (hp : ∀ x y, b1.pix x y = b2.pix x y) : b1 = b2 := by
  obtain ⟨w1, h1, p1⟩ := b1
  obtain ⟨w2, h2, p2⟩ := b2
  simp only at hw hh
  subst hw
  subst hh
  have hpfun : p1 = p2 := funext fun x => funext fun y => hp x y
  rw [hpfun]

lemma mod_of_cell {c i dx : Nat} (hdx : dx < c) : (i * c + dx) % c = dx := by
  rw [mul_comm, Nat.mul_add_mod, Nat.mod_eq_of_lt hdx]

lemma cell_id (c z : Nat) : z / c * c + z % c = z := by
  rw [mul_comm]
  exact Nat.div_add_mod z c

/-- The map `permMap` is an involution on pixel positions. -/
lemma permMap_permMap (cw ch x y : Nat) :
    permMap cw ch (permMap cw ch x y).1 (permMap cw ch x y).2 = (x, y) := by
  by_cases hg : x < numCells * cw ∧ y < numCells * ch ∧ x / cw ≠ y / ch
  · have hcw : 0 < cw := by
      rcases Nat.eq_zero_or_pos cw with rfl | h
      · rw [Nat.mul_zero] at hg
        exact absurd hg.1 (Nat.not_lt_zero x)
      · exact h
    have hch : 0 < ch := by
      rcases Nat.eq_zero_or_pos ch with rfl | h
      · rw [Nat.mul_zero] at hg
        exact absurd hg.2.1 (Nat.not_lt_zero y)
      · exact h
    have hx4 : x / cw < numCells := (Nat.div_lt_iff_lt_mul hcw).mpr hg.1
    have hy4 : y / ch < numCells := (Nat.div_lt_iff_lt_mul hch).mpr hg.2.1
    have hin : permMap cw ch x y = (y / ch * cw + x % cw, x / cw * ch + y % ch) := by
      rw [permMap, if_pos hg]
    rw [hin]
    dsimp only
    have hd1 : (y / ch * cw + x % cw) / cw = y / ch := div_mul_add_mod hcw _ x
    have hd2 : (x / cw * ch + y % ch) / ch = x / cw := div_mul_add_mod hch _ y
    have hm1 : (y / ch * cw + x % cw) % cw = x % cw := mod_mul_add_mod hcw _ x
    have hm2 : (x / cw * ch + y % ch) % ch = y % ch := mod_mul_add_mod hch _ y
    have hb1 : y / ch * cw + x % cw < numCells * cw := by
      have := cell_sep (x % cw) 0 hy4 (Nat.mod_lt x hcw)
      simpa using this
    have hb2 : x / cw * ch + y % ch < numCells * ch := by
      have := cell_sep (y % ch) 0 hx4 (Nat.mod_lt y hch)
      simpa using this
    rw [permMap, if_pos ⟨hb1, hb2, by rw [hd1, hd2]; exact fun hc => hg.2.2 hc.symm⟩]
    rw [hd1, hd2, hm1, hm2, cell_id, cell_id]
  · have hin : permMap cw ch x y = (x, y) := by
      rw [permMap, if_neg hg]
    rw [hin]
    dsimp only
    rw [permMap, if_neg hg]

/-- Concrete 32x32 three-channel buffer whose pixel at `(x, y)` records its
own coordinates; cell size is `32 / 32 * 8 = 8`. -/
def giga32 : Buffer := ⟨32, 32, fun x y => (x, y, 0)⟩

/-- Concrete 800x800 buffer; cell size is `800 / 32 * 8 = 200`. -/
def giga800 : Buffer := ⟨800, 800, fun x y => (x, y, 0)⟩

/-- C1: for every RGB pixel buffer whose width and height each admit at least
one full cell (dimension at least `N * K = 32`), applying the permutation
solver's `solve_buffer` twice returns a buffer byte-identical to the
original. -/
theorem c1_solve_buffer_involution (b : Buffer) (hw : 32 ≤ b.width) (hh : 32 ≤ b.height) :
    solve_buffer (solve_buffer b) = b := by
  apply Buffer.ext
  · rw [solve_buffer_width, solve_buffer_width]
  · rw [solve_buffer_height, solve_buffer_height]
  · intro x y
    rw [solve_buffer_pix (solve_buffer b) x y, solve_buffer_width, solve_buffer_height,
      solve_buffer_pix b]
    rw [permMap_permMap (cellSize b.width) (cellSize b.height) x y]

/-- Witness for C1 at a concrete 32x32 buffer. -/
theorem c1_witness : 32 ≤ giga32.width ∧ 32 ≤ giga32.height ∧
    solve_buffer (solve_buffer giga32) = giga32 :=
  ⟨by decide, by decide, c1_solve_buffer_involution giga32 (by decide) (by decide)⟩

/-- C5: `solve_buffer` partitions the buffer into a 4x4 grid of cells of size
`floor(dim / 32) * 8` and, for every pair `i < j`, exchanges the region at
`(i * cell_width, j * cell_height)` pixel-for-pixel with the region at
`(j * cell_width, i * cell_height)`; for an 800-pixel dimension the cell size
is `floor(800 / 32) * 8 = 200`. -/
theorem c5_solve_buffer_grid_swap :
    (∀ (b : Buffer) (i j dx dy : Nat), i < j → j < numCells →
      dx < cellSize b.width → dy < cellSize b.height →
      (solve_buffer b).pix (i * cellSize b.width + dx) (j * cellSize b.height + dy)
          = b.pix (j * cellSize b.width + dx) (i * cellSize b.height + dy)
        ∧ (solve_buffer b).pix (j * cellSize b.width + dx) (i * cellSize b.height + dy)
          = b.pix (i * cellSize b.width + dx) (j * cellSize b.height + dy))
    ∧ cellSize 800 = 200 := by
  constructor
  · intro b i j dx dy hij hj4 hdx hdy
    have hi4 : i < numCells := Nat.lt_trans hij hj4
    have hdu : (i * cellSize b.width + dx) / cellSize b.width = i :=
      div_of_cell (Nat.le_add_right _ _) (Nat.add_lt_add_left hdx _)
    have hdu' : (j * cellSize b.width + dx) / cellSize b.width = j :=
      div_of_cell (Nat.le_add_right _ _) (Nat.add_lt_add_left hdx _)
    have hdv : (j * cellSize b.height + dy) / cellSize b.height = j :=
      div_of_cell (Nat.le_add_right _ _) (Nat.add_lt_add_left hdy _)
    have hdv' : (i * cellSize b.height + dy) / cellSize b.height = i :=
      div_of_cell (Nat.le_add_right _ _) (Nat.add_lt_add_left hdy _)
    have hbu : i * cellSize b.width + dx < numCells * cellSize b.width := by
      have := cell_sep dx 0 hi4 hdx
      simpa using this
    have hbu' : j * cellSize b.width + dx < numCells * cellSize b.width := by
      have := cell_sep dx 0 hj4 hdx
      simpa using this
    have hbv : j * cellSize b.height + dy < numCells * cellSize b.height := by
      have := cell_sep dy 0 hj4 hdy
      simpa using this
    have hbv' : i * cellSize b.height + dy < numCells * cellSize b.height := by
      have := cell_sep dy 0 hi4 hdy
      simpa using this
    constructor
    · have hperm : permMap (cellSize b.width) (cellSize b.height)
          (i * cellSize b.width + dx) (j * cellSize b.height + dy)
          = (j * cellSize b.width + dx, i * cellSize b.height + dy) := by
        rw [permMap, if_pos ⟨hbu, hbv, by rw [hdu, hdv]; exact Nat.ne_of_lt hij⟩]
        rw [hdu, hdv, mod_of_cell hdx, mod_of_cell hdy]
      rw [solve_buffer_pix, hperm]
    · have hperm : permMap (cellSize b.width) (cellSize b.height)
          (j * cellSize b.width + dx) (i * cellSize b.height + dy)
          = (i * cellSize b.width + dx, j * cellSize b.height + dy) := by
        rw [permMap, if_pos ⟨hbu', hbv', by rw [hdu', hdv']; exact (Nat.ne_of_lt hij).symm⟩]
        rw [hdu', hdv', mod_of_cell hdx, mod_of_cell hdy]
      rw [solve_buffer_pix, hperm]
  · decide

/-- Witness for C5: on the 800x800 buffer the 200x200 cells (0,1) and (1,0)
are exchanged (checked at their top-left corners). -/
theorem c5_witness :
    (solve_buffer giga800).pix (0 * cellSize giga800.width + 0)
        (1 * cellSize giga800.height + 0)
      = giga800.pix (1 * cellSize giga800.width + 0) (0 * cellSize giga800.height + 0)
    ∧ (solve_buffer giga800).pix (1 * cellSize giga800.width + 0)
        (0 * cellSize giga800.height + 0)
      = giga800.pix (0 * cellSize giga800.width + 0) (1 * cellSize giga800.height + 0) :=
  c5_solve_buffer_grid_swap.1 giga800 0 1 0 0 (by decide) (by decide) (by decide) (by decide)

/-- C6 counterexample: the pixel at `(8, 0)` lies in the lower-triangle cell
(column 1, row 0) of a 32x32 buffer (cell size 8), yet `solve_buffer` changes
it — the lower-triangle cells are not untouched. -/
theorem c6_counterexample : (solve_buffer giga32).pix 8 0 ≠ giga32.pix 8 0 := by
  rw [solve_buffer_pix]
  decide

/-- C6 (amended): every pixel of a diagonal cell and every pixel outside the
`numCells * cellsize` extent is byte-identical before and after
`solve_buffer`; off-diagonal cells (both triangles) are exchanged with their
mirror cells. -/
theorem c6_untouched_outside_swaps (b : Buffer) (x y : Nat)
    (h : numCells * cellSize b.width ≤ x ∨ numCells * cellSize b.height ≤ y
      ∨ x / cellSize b.width = y / cellSize b.height) :
    (solve_buffer b).pix x y = b.pix x y := by
  rw [solve_buffer_pix]
  have hg : ¬(x < numCells * cellSize b.width ∧ y < numCells * cellSize b.height
      ∧ x / cellSize b.width ≠ y / cellSize b.height) := by
    intro hc
    rcases h with h | h | h
    · exact absurd hc.1 (Nat.not_lt.mpr h)
    · exact absurd hc.2.1 (Nat.not_lt.mpr h)
    · exact hc.2.2 h
  rw [permMap, if_neg hg]

/-- Witness for the amended C6: the diagonal pixel `(0, 0)` and the border
pixel `(33, 0)` of the 32x32 buffer are untouched. -/
theorem c6_amended_witness :
    (solve_buffer giga32).pix 0 0 = giga32.pix 0 0
      ∧ (solve_buffer giga32).pix 33 0 = giga32.pix 33 0 :=
  ⟨c6_untouched_outside_swaps giga32 0 0 (Or.inr (Or.inr rfl)),
    c6_untouched_outside_swaps giga32 33 0 (Or.inl (by decide))⟩

end Giga

namespace Fuz

/-- Outcome of a call to `decrypt_aes_cbc` in `fuz/crypto.rs`: a returned
`Ok` value, an error propagated by `?` (the only fallible step is
`hex::decode`), or a panic.  `GenericArray::from_slice` panics when the
decoded key/iv has the wrong length, and `GenericArray::clone_from_slice`
panics on the short last chunk of a non-block-aligned buffer. -/
inductive CryptoOutcome where
  | ok (bytes : List Nat)
  | hexError
  | crashed
deriving DecidableEq

/-- Value of one hex digit, as in `hex::decode`. -/
def hexVal (c : Char) : Option Nat :=
  if '0' ≤ c ∧ c ≤ '9' then some (c.toNat - 48)
  else if 'a' ≤ c ∧ c ≤ 'f' then some (c.toNat - 87)
  else if 'A' ≤ c ∧ c ≤ 'F' then some (c.toNat - 55)
  else none

/-- Embeds `hex::decode` on a character list: pairs of hex digits become bytes;
odd length or a non-hex character is an error (`none`). -/
def hexDecodeChars : List Char → Option (List Nat)
  | [] => some []
  | [_] => none
  | hi :: lo :: rest =>
    match hexVal hi, hexVal lo, hexDecodeChars rest with
    | some h, some l, some bs => some ((h * 16 + l) :: bs)
    | _, _, _ => none

/-- Embeds `hex::decode` on a string. -/
def hexDecode (s : String) : Option (List Nat) := hexDecodeChars s.data

/-- Embeds `buffer.chunks(16)` with the `aes`/`cipher` block size for `Aes256Dec`:
consecutive chunks of 16 bytes, the last one possibly shorter. -/
def chunks16 : List Nat → List (List Nat)
  | [] => []
  | x :: xs => (x :: xs).take 16 :: chunks16 (xs.drop 15)
  termination_by l => l.length
  decreasing_by simp [List.length_drop]; omega

/-- Byte-wise XOR of two equal-length buffers. -/
def xorBytes (a b : List Nat) : List Nat := List.zipWith (fun u v => u ^^^ v) a b

/-- The stateful chaining of `cbc::Decryptor::decrypt_block_mut`, applied
sequentially by `buffer.iter_mut().for_each(...)`: each output block is the
block-cipher decryption of the ciphertext block XORed with the previous
ciphertext block, the first with the iv. `D` is the keyed AES-256 block
decryption of the external `aes` crate. -/
def cbcDecryptBlocks (D : List Nat → List Nat) : List Nat → List (List Nat) → List (List Nat)
  | _, [] => []
  | iv, c :: rest => xorBytes (D c) iv :: cbcDecryptBlocks D c rest

/-- Modelled from the spec: the forward scrambler — CBC encryption with block
cipher `E` — whose exact inverse the solver's reverse operation is claimed to
be. -/
def cbcEncryptBlocks (E : List Nat → List Nat) : List Nat → List (List Nat) → List (List Nat)
  | _, [] => []
  | iv, p :: rest => E (xorBytes p iv) :: cbcEncryptBlocks E (E (xorBytes p iv)) rest

/-- Modelled from the spec: whole-buffer CBC encryption under key/iv. -/
def cbcEncrypt (E : List Nat → List Nat → List Nat) (key iv plain : List Nat) : List Nat :=
  (cbcEncryptBlocks (E key) iv (chunks16 plain)).flatten

/-- Embeds `decrypt_aes_cbc(buffer, key_hex, iv_hex)` of `fuz/crypto.rs`,
parameterised by the external AES-256 block decryption `D` (first argument:
the decoded key).  Hex-decode key and iv (`?` on failure); build the
`Decryptor` from `GenericArray::from_slice` views of them (panics unless the
key is 32 bytes and the iv 16); chunk the buffer into `GenericArray`s via
`clone_from_slice` (panics unless the length is a multiple of 16); decrypt
each chunk in order, and concatenate. -/
def decrypt_aes_cbc (D : List Nat → List Nat → List Nat)
    (buffer : List Nat) (keyHex ivHex : String) : CryptoOutcome :=
  match hexDecode keyHex with
  | none => .hexError
  | some keyBytes =>
    match hexDecode ivHex with
    | none => .hexError
    | some ivBytes =>
      if keyBytes.length ≠ 32 then .crashed
      else if ivBytes.length ≠ 16 then .crashed
      else if buffer.length % 16 ≠ 0 then .crashed
      else .ok (cbcDecryptBlocks (D keyBytes) ivBytes (chunks16 buffer)).flatten

/-- Embeds `fuz::Solver::solve_buffer`: delegates to `decrypt_aes_cbc` with the
solver's stored key/iv hex strings. -/
def solve_buffer (D : List Nat → List Nat → List Nat)
    (keyHex ivHex : String) (buffer : List Nat) : CryptoOutcome :=
  decrypt_aes_cbc D buffer keyHex ivHex

/-- The spec's per-block description of CBC decryption: block `k` is the
decryption of ciphertext block `k` XORed with ciphertext block `k - 1`
(the iv for `k = 0`). -/
def cbcSpecBlocks (D : List Nat → List Nat) (iv : List Nat) (cs : List (List Nat)) :
    List (List Nat) :=
  List.zipWith (fun c p => xorBytes (D c) p) cs (iv :: cs)

lemma cbcDecryptBlocks_eq_spec (D : List Nat → List Nat) :
    ∀ (cs : List (List Nat)) (iv : List Nat),
      cbcDecryptBlocks D iv cs = cbcSpecBlocks D iv cs := by
  intro cs
  induction cs with
  | nil => intro iv; rfl
  | cons c rest ih =>
    intro iv
    show xorBytes (D c) iv :: cbcDecryptBlocks D c rest = _
    rw [ih c]
    rfl

lemma xorBytes_length (a b : List Nat) : (xorBytes a b).length = min a.length b.length :=
  List.length_zipWith _ a b

lemma xorBytes_cancel : ∀ (a b : List Nat), a.length ≤ b.length →
    xorBytes (xorBytes a b) b = a := by
  intro a
  induction a with
  | nil => intro b h; rfl
  | cons x xs ih =>
    intro b h
    cases b with
    | nil => simp at h
    | cons y ys =>
      show ((x ^^^ y) ^^^ y) :: xorBytes (xorBytes xs ys) ys = x :: xs
      rw [Nat.xor_cancel_right, ih ys (by simpa using h)]

lemma chunks16_nil : chunks16 [] = [] := by
  rw [chunks16]

lemma chunks16_cons (x : Nat) (xs : List Nat) :
    chunks16 (x :: xs) = (x :: xs).take 16 :: chunks16 ((x :: xs).drop 16) := by
  rw [List.drop_succ_cons, chunks16]

lemma flatten_chunks16_aux : ∀ (n : Nat) (l : List Nat), l.length ≤ n →
    l.length % 16 = 0 → (chunks16 l).flatten = l := by
  intro n
  induction n with
  | zero =>
    intro l hl hm
    rw [List.eq_nil_of_length_eq_zero (Nat.le_zero.mp hl), chunks16_nil]
    rfl
  | succ n ih =>
    intro l hl hm
    cases l with
    | nil => rw [chunks16_nil]; rfl
    | cons x xs =>
      simp only [List.length_cons] at hl hm
      rw [chunks16_cons, List.flatten_cons,
        ih ((x :: xs).drop 16)
          (by simp only [List.length_drop, List.length_cons]; omega)
          (by simp only [List.length_drop, List.length_cons]; omega),
        List.take_append_drop]

lemma flatten_chunks16 (l : List Nat) (h : l.length % 16 = 0) : (chunks16 l).flatten = l :=
  flatten_chunks16_aux l.length l (Nat.le_refl _) h

lemma mem_chunks16_length_aux : ∀ (n : Nat) (l : List Nat), l.length ≤ n →
    l.length % 16 = 0 → ∀ b ∈ chunks16 l, b.length = 16 := by
  intro n
  induction n with
  | zero =>
    intro l hl hm b hb
    rw [List.eq_nil_of_length_eq_zero (Nat.le_zero.mp hl), chunks16_nil] at hb
    cases hb
  | succ n ih =>
    intro l hl hm b hb
    cases l with
    | nil => rw [chunks16_nil] at hb; cases hb
    | cons x xs =>
      simp only [List.length_cons] at hl hm
      rw [chunks16_cons] at hb
      rcases List.mem_cons.mp hb with rfl | hb
      · rw [List.length_take]
        simp only [List.length_cons]
        omega
      · exact ih ((x :: xs).drop 16)
          (by simp only [List.length_drop, List.length_cons]; omega)
          (by simp only [List.length_drop, List.length_cons]; omega) b hb

lemma mem_chunks16_length (l : List Nat) (h : l.length % 16 = 0) :
    ∀ b ∈ chunks16 l, b.length = 16 :=
  mem_chunks16_length_aux l.length l (Nat.le_refl _) h

lemma chunks16_flatten : ∀ (bs : List (List Nat)), (∀ b ∈ bs, b.length = 16) →
    chunks16 bs.flatten = bs := by
  intro bs
  induction bs with
  | nil =>
    intro
    rw [List.flatten_nil, chunks16_nil]
  | cons b rest ih =>
    intro h
    have hb : b.length = 16 := h b (List.mem_cons_self _ _)
    cases b with
    | nil => simp at hb
    | cons x xs =>
      rw [List.flatten_cons, List.cons_append, chunks16_cons, ← List.cons_append]
      have ht : List.take 16 ((x :: xs) ++ rest.flatten) = x :: xs := by
        rw [← hb]
        exact List.take_left _ _
      have hd : List.drop 16 ((x :: xs) ++ rest.flatten) = rest.flatten := by
        rw [← hb]
        exact List.drop_left _ _
      rw [ht, hd, ih (fun c hc => h c (List.mem_cons_of_mem _ hc))]

lemma cbc_roundtrip_blocks (D E : List Nat → List Nat)
    (hDE : ∀ b : List Nat, b.length = 16 → D (E b) = b)
    (hElen : ∀ b : List Nat, b.length = 16 → (E b).length = 16) :
    ∀ (ps : List (List Nat)) (iv : List Nat), iv.length = 16 →
      (∀ p ∈ ps, p.length = 16) →
      cbcDecryptBlocks D iv (cbcEncryptBlocks E iv ps) = ps := by
  intro ps
  induction ps with
  | nil => intro iv hiv hps; rfl
  | cons p rest ih =>
    intro iv hiv hps
    have hp : p.length = 16 := hps p (List.mem_cons_self _ _)
    have hxlen : (xorBytes p iv).length = 16 := by
      rw [xorBytes_length, hp, hiv]
      rfl
    show xorBytes (D (E (xorBytes p iv))) iv :: _ = p :: rest
    rw [hDE _ hxlen, xorBytes_cancel p iv (by rw [hp, hiv]),
      ih (E (xorBytes p iv)) (hElen _ hxlen) (fun q hq => hps q (List.mem_cons_of_mem _ hq))]

lemma cbcDecryptBlocks_blocklen (D : List Nat → List Nat)
    (hD : ∀ c : List Nat, c.length = 16 → (D c).length = 16) :
    ∀ (cs : List (List Nat)) (iv : List Nat), iv.length = 16 →
      (∀ c ∈ cs, c.length = 16) →
      ∀ b ∈ cbcDecryptBlocks D iv cs, b.length = 16 := by
  intro cs
  induction cs with
  | nil => intro iv hiv hcs b hb; cases hb
  | cons c rest ih =>
    intro iv hiv hcs b hb
    have hc : c.length = 16 := hcs c (List.mem_cons_self _ _)
    rcases List.mem_cons.mp hb with rfl | hb
    · rw [xorBytes_length, hD c hc, hiv]
      rfl
    · exact ih c hc (fun q hq => hcs q (List.mem_cons_of_mem _ hq)) b hb

lemma cbcDecryptBlocks_count (D : List Nat → List Nat) :
    ∀ (cs : List (List Nat)) (iv : List Nat),
      (cbcDecryptBlocks D iv cs).length = cs.length := by
  intro cs
  induction cs with
  | nil => intro iv; rfl
  | cons c rest ih =>
    intro iv
    show (cbcDecryptBlocks D c rest).length + 1 = rest.length + 1
    rw [ih c]

lemma flatten_length_uniform : ∀ (bs : List (List Nat)), (∀ b ∈ bs, b.length = 16) →
    bs.flatten.length = 16 * bs.length := by
  intro bs
  induction bs with
  | nil => intro; rfl
  | cons b rest ih =>
    intro h
    rw [List.flatten_cons, List.length_append, h b (List.mem_cons_self _ _),
      ih (fun c hc => h c (List.mem_cons_of_mem _ hc)), List.length_cons]
    ring

lemma cbcEncryptBlocks_blocklen (E : List Nat → List Nat)
    (hE : ∀ b : List Nat, b.length = 16 → (E b).length = 16) :
    ∀ (ps : List (List Nat)) (iv : List Nat), iv.length = 16 →
      (∀ p ∈ ps, p.length = 16) →
      ∀ b ∈ cbcEncryptBlocks E iv ps, b.length = 16 := by
  intro ps
  induction ps with
  | nil => intro iv hiv hps b hb; cases hb
  | cons p rest ih =>
    intro iv hiv hps b hb
    have hp : p.length = 16 := hps p (List.mem_cons_self _ _)
    have hxlen : (xorBytes p iv).length = 16 := by
      rw [xorBytes_length, hp, hiv]
      rfl
    rcases List.mem_cons.mp hb with rfl | hb
    · exact hE _ hxlen
    · exact ih (E (xorBytes p iv)) (hE _ hxlen)
        (fun q hq => hps q (List.mem_cons_of_mem _ hq)) b hb

lemma decrypt_aes_cbc_run (D : List Nat → List Nat → List Nat) (keyHex ivHex : String)
    (key iv : List Nat)
    (hkey : hexDecode keyHex = some key) (hkeyLen : key.length = 32)
    (hiv : hexDecode ivHex = some iv) (hivLen : iv.length = 16)
    (buf : List Nat) (hb : buf.length % 16 = 0) :
    decrypt_aes_cbc D buf keyHex ivHex
      = .ok (cbcDecryptBlocks (D key) iv (chunks16 buf)).flatten := by
  simp only [decrypt_aes_cbc, hkey, hiv]
  rw [if_neg (by simp [hkeyLen]), if_neg (by simp [hivLen]), if_neg (by simp [hb])]

/-- C3: for every block-aligned ciphertext and valid hex-encoded AES-256 key
(32 bytes) and iv (16 bytes), `decrypt_aes_cbc` returns the CBC-mode
decryption — each ciphertext block decrypted with the block cipher then XORed
with the previous ciphertext block, the first block with the iv — the output
length equals the input length, and decrypting the CBC encryption of any
block-aligned plaintext under the same key and iv reproduces that plaintext
exactly.  `D`/`E` are the external AES-256 block decryption/encryption, with
their blockwise inverse relationship as hypotheses. -/
theorem c3_decrypt_aes_cbc_correct
    (D E : List Nat → List Nat → List Nat) (keyHex ivHex : String)
    (key iv buffer plain : List Nat)
    (hkey : hexDecode keyHex = some key) (hkeyLen : key.length = 32)
    (hiv : hexDecode ivHex = some iv) (hivLen : iv.length = 16)
    (hDlen : ∀ b : List Nat, b.length = 16 → (D key b).length = 16)
    (hElen : ∀ b : List Nat, b.length = 16 → (E key b).length = 16)
    (hDE : ∀ b : List Nat, b.length = 16 → D key (E key b) = b)
    (hbuf : buffer.length % 16 = 0) (hplain : plain.length % 16 = 0) :
    decrypt_aes_cbc D buffer keyHex ivHex
        = .ok (cbcSpecBlocks (D key) iv (chunks16 buffer)).flatten
      ∧ (∃ out, decrypt_aes_cbc D buffer keyHex ivHex = .ok out
          ∧ out.length = buffer.length)
      ∧ decrypt_aes_cbc D (cbcEncrypt E key iv plain) keyHex ivHex = .ok plain := by
  have hcl : ∀ c ∈ chunks16 buffer, c.length = 16 := mem_chunks16_length buffer hbuf
  refine ⟨?_, ?_, ?_⟩
  · rw [decrypt_aes_cbc_run D keyHex ivHex key iv hkey hkeyLen hiv hivLen buffer hbuf,
      cbcDecryptBlocks_eq_spec]
  · refine ⟨_, decrypt_aes_cbc_run D keyHex ivHex key iv hkey hkeyLen hiv hivLen buffer hbuf, ?_⟩
    have hdl : ∀ b ∈ cbcDecryptBlocks (D key) iv (chunks16 buffer), b.length = 16 :=
      cbcDecryptBlocks_blocklen (D key) hDlen (chunks16 buffer) iv hivLen hcl
    rw [flatten_length_uniform _ hdl, cbcDecryptBlocks_count]
    conv_rhs => rw [← flatten_chunks16 buffer hbuf]
    rw [flatten_length_uniform _ hcl]
  · have hpl : ∀ p ∈ chunks16 plain, p.length = 16 := mem_chunks16_length plain hplain
    have hencb : ∀ b ∈ cbcEncryptBlocks (E key) iv (chunks16 plain), b.length = 16 :=
      cbcEncryptBlocks_blocklen (E key) hElen (chunks16 plain) iv hivLen hpl
    have hencmod : (cbcEncrypt E key iv plain).length % 16 = 0 := by
      rw [cbcEncrypt, flatten_length_uniform _ hencb]
      omega
    rw [decrypt_aes_cbc_run D keyHex ivHex key iv hkey hkeyLen hiv hivLen _ hencmod,
      cbcEncrypt, chunks16_flatten _ hencb,
      cbc_roundtrip_blocks (D key) (E key) hDE hElen (chunks16 plain) iv hivLen hpl,
      flatten_chunks16 plain hplain]

/-- A 64-character hex string: a valid 32-byte AES-256 key encoding. -/
def zeros64 : String := "0000000000000000000000000000000000000000000000000000000000000000"

/-- A 32-character hex string: a valid 16-byte iv encoding. -/
def zeros32 : String := "00000000000000000000000000000000"

/-- Witness for C3 with the identity block cipher at concrete key/iv/buffers. -/
theorem c3_witness :
    decrypt_aes_cbc (fun _ b => b) (List.replicate 16 7) zeros64 zeros32
        = .ok (cbcSpecBlocks ((fun (_ b : List Nat) => b) (List.replicate 32 0))
            (List.replicate 16 0) (chunks16 (List.replicate 16 7))).flatten
      ∧ (∃ out, decrypt_aes_cbc (fun _ b => b) (List.replicate 16 7) zeros64 zeros32
            = .ok out ∧ out.length = (List.replicate (α := Nat) 16 7).length)
      ∧ decrypt_aes_cbc (fun _ b => b)
          (cbcEncrypt (fun _ b => b) (List.replicate 32 0) (List.replicate 16 0)
            (List.replicate 16 9)) zeros64 zeros32 = .ok (List.replicate 16 9) :=
  c3_decrypt_aes_cbc_correct (fun _ b => b) (fun _ b => b) zeros64 zeros32
    (List.replicate 32 0) (List.replicate 16 0) (List.replicate 16 7) (List.replicate 16 9)
    (by decide) (by decide) (by decide) (by decide)
    (fun b hb => hb) (fun b hb => hb) (fun b hb => rfl) (by decide) (by decide)

/-- C4 counterexample: with the valid-hex but 1-byte key "00" the cipher
solver's reverse operation panics in `GenericArray::from_slice` (modelled as
`crashed`) instead of returning an error, and with a valid key/iv a 5-byte
(non-block-multiple) buffer panics in `clone_from_slice` — contradicting
"returns the InvalidObfuscationParameters / MalformedCipherInput error and
never crashes". -/
theorem c4_counterexample :
    solve_buffer (fun _ b => b) "00" zeros32 [] = CryptoOutcome.crashed
      ∧ solve_buffer (fun _ b => b) zeros64 zeros32 (List.replicate 5 0)
          = CryptoOutcome.crashed := by
  constructor
  · decide
  · decide

/-- C4 (amended): a key or iv that decodes to the wrong length makes the
cipher solver's reverse operation panic (there is no
InvalidObfuscationParameters error in the code), a buffer whose length is not
a multiple of the block size also panics (there is no MalformedCipherInput
error), and a non-hex key yields the hex-decode error; nothing is silently
truncated or padded. -/
theorem c4_wrong_params_crash :
    (∀ (D : List Nat → List Nat → List Nat) (keyHex ivHex : String) (key iv buffer : List Nat),
      hexDecode keyHex = some key → hexDecode ivHex = some iv → key.length ≠ 32 →
      solve_buffer D keyHex ivHex buffer = .crashed)
    ∧ (∀ (D : List Nat → List Nat → List Nat) (keyHex ivHex : String)
        (key iv buffer : List Nat),
      hexDecode keyHex = some key → key.length = 32 →
      hexDecode ivHex = some iv → iv.length ≠ 16 →
      solve_buffer D keyHex ivHex buffer = .crashed)
    ∧ (∀ (D : List Nat → List Nat → List Nat) (keyHex ivHex : String)
        (key iv buffer : List Nat),
      hexDecode keyHex = some key → key.length = 32 →
      hexDecode ivHex = some iv → iv.length = 16 → buffer.length % 16 ≠ 0 →
      solve_buffer D keyHex ivHex buffer = .crashed)
    ∧ (∀ (D : List Nat → List Nat → List Nat) (keyHex ivHex : String) (buffer : List Nat),
      hexDecode keyHex = none →
      solve_buffer D keyHex ivHex buffer = .hexError) := by
  refine ⟨?_, ?_, ?_, ?_⟩
  · intro D keyHex ivHex key iv buffer hkey hiv hlen
    simp only [solve_buffer, decrypt_aes_cbc, hkey, hiv]
    rw [if_pos hlen]
  · intro D keyHex ivHex key iv buffer hkey hklen hiv hilen
    simp only [solve_buffer, decrypt_aes_cbc, hkey, hiv]
    rw [if_neg (by simp [hklen]), if_pos hilen]
  · intro D keyHex ivHex key iv buffer hkey hklen hiv hilen hbuf
    simp only [solve_buffer, decrypt_aes_cbc, hkey, hiv]
    rw [if_neg (by simp [hklen]), if_neg (by simp [hilen]), if_pos hbuf]
  · intro D keyHex ivHex buffer hkey
    simp only [solve_buffer, decrypt_aes_cbc, hkey]

/-- Witness for the amended C4 at concrete inputs. -/
theorem c4_amended_witness :
    solve_buffer (fun _ b => b) "00" zeros32 [] = CryptoOutcome.crashed
      ∧ solve_buffer (fun _ b => b) zeros64 "00" [] = CryptoOutcome.crashed
      ∧ solve_buffer (fun _ b => b) zeros64 zeros32 (List.replicate 5 0)
          = CryptoOutcome.crashed
      ∧ solve_buffer (fun _ b => b) "zz" zeros32 [] = CryptoOutcome.hexError :=
  ⟨c4_wrong_params_crash.1 (fun _ b => b) "00" zeros32 [0] (List.replicate 16 0) []
      (by decide) (by decide) (by decide),
    c4_wrong_params_crash.2.1 (fun _ b => b) zeros64 "00" (List.replicate 32 0) [0] []
      (by decide) (by decide) (by decide) (by decide),
    c4_wrong_params_crash.2.2.1 (fun _ b => b) zeros64 zeros32 (List.replicate 32 0)
      (List.replicate 16 0) (List.replicate 5 0) (by decide) (by decide) (by decide)
      (by decide) (by decide),
    c4_wrong_params_crash.2.2.2 (fun _ b => b) "zz" zeros32 [] (by decide)⟩

end Fuz

namespace PipelineModel

/-- Generic fact about sorting by a `Nat` key: any permutation of a list
whose keys are strictly increasing sorts back to exactly that list. -/
lemma insertionSort_key_perm_eq {α : Type} (key : α → Nat) (target l : List α)
    (hsorted : (target.map key).Pairwise (· < ·)) (hperm : l.Perm target) :
    List.insertionSort (fun a b => key a ≤ key b) l = target := by
  haveI : IsTotal α (fun a b => key a ≤ key b) := ⟨fun a b => Nat.le_total _ _⟩
  haveI : IsTrans α (fun a b => key a ≤ key b) := ⟨fun a b c hab hbc => Nat.le_trans hab hbc⟩
  haveI : IsAntisymm α (fun a b => key a < key b) :=
    ⟨fun a b h1 h2 => absurd h2 (Nat.lt_asymm h1)⟩
  apply List.eq_of_perm_of_sorted (r := fun a b => key a < key b)
    ((List.perm_insertionSort _ l).trans hperm)
  · have hs : List.Sorted (fun a b => key a ≤ key b)
        (List.insertionSort (fun a b => key a ≤ key b) l) :=
      List.sorted_insertionSort _ l
    have hpk : ((List.insertionSort (fun a b => key a ≤ key b) l).map key).Perm
        (target.map key) := ((List.perm_insertionSort _ l).trans hperm).map key
    have hndt : (target.map key).Nodup := hsorted.imp (fun h => Nat.ne_of_lt h)
    have hnd : ((List.insertionSort (fun a b => key a ≤ key b) l).map key).Nodup :=
      (List.Perm.nodup_iff hpk).mpr hndt
    have hne : (List.insertionSort (fun a b => key a ≤ key b) l).Pairwise
        (fun a b => key a ≠ key b) := List.pairwise_map.mp hnd
    exact (hs.and hne).imp (fun hc => Nat.lt_of_le_of_ne hc.1 hc.2)
  · exact List.pairwise_map.mp hsorted

/-- Embeds `images.par_sort_by_key(|&(i, _)| i)` of `giga/pipeline.rs`: a sort of
the index-tagged results by their tag.  The tags are pairwise distinct, so
the result is the unique sorted permutation — the same one rayon's unstable
parallel sort produces. -/
def sortByIdx {γ : Type} (l : List (Nat × γ)) : List (Nat × γ) :=
  List.insertionSort (fun a b => a.1 ≤ b.1) l

lemma sortByIdx_perm_enum {γ : Type} (xs : List γ) (completed : List (Nat × γ))
    (h : completed.Perm xs.enum) : sortByIdx completed = xs.enum :=
  insertionSort_key_perm_eq Prod.fst xs.enum completed
    (by rw [List.enum_map_fst]; exact List.pairwise_lt_range _) h

/-- Embeds `futures::TryStreamExt::try_collect` over the completion-ordered stream
of per-page outcomes: collect until the first `Err`, which is returned. -/
def tryCollect {ε α : Type} : List (Except ε α) → Except ε (List α)
  | [] => .ok []
  | .error e :: _ => .error e
  | .ok a :: rest => (tryCollect rest).map (a :: ·)

/-- Embeds `giga::Pipeline::download` after the episode is fetched: the pages are
`enumerate()`-tagged and fetched/solved under `buffer_unordered` /
`try_buffer_unordered`; `completed` is the stream of per-page outcomes
`(original index, solved image)` in an arbitrary completion order.
`try_collect` short-circuits at the first error (`await?` returns before the
write stage); on success the results are sorted by index, stripped of their
tags, and handed as one collection to `write_images`.  Returns the download
result together with the list of write-stage invocations. -/
def download {ε γ : Type} (completed : List (Except ε (Nat × γ))) :
    Except ε (List γ) × List (List γ) :=
  match tryCollect completed with
  | .error e => (.error e, [])
  | .ok results =>
    let images := (sortByIdx results).map Prod.snd
    (.ok images, [images])

/-- Embeds `fuz::Pipeline::fetch_images`: each page's bytes are tagged with
`page.index()`, completion order is arbitrary, then
`pages.par_sort_by_key(|(_, index)| *index)` and the tags are stripped. -/
def fetch_images {β : Type} (completed : List (β × Nat)) : List β :=
  (List.insertionSort (fun a b => a.2 ≤ b.2) completed).map Prod.fst

lemma tryCollect_map_ok {ε α : Type} (l : List α) :
    tryCollect (l.map (Except.ok (ε := ε))) = .ok l := by
  induction l with
  | nil => rfl
  | cons x xs ih =>
    show (tryCollect (xs.map _)).map _ = _
    rw [ih]
    rfl

/-- C2: for every episode and every completion order of the concurrent
fetch+solve tasks, the collection handed to the writer is sorted ascending by
the pages' original index — the k-th written image is the solved image of the
page with the k-th smallest index, for any number of pages (including 0 and
1), and the index sequence is strictly ascending.  Both the giga `download`
gather and the fuz `fetch_images` gather are covered. -/
theorem c2_pipeline_ordering {α β γ : Type} :
    (∀ (pages : List α) (fetch : α → β) (solve : β → γ)
      (completed : List (Nat × γ)),
      completed.Perm ((pages.map (fun p => solve (fetch p))).enum) →
      download (completed.map (Except.ok (ε := String)))
          = (.ok (pages.map (fun p => solve (fetch p))),
              [pages.map (fun p => solve (fetch p))])
        ∧ ((sortByIdx completed).map Prod.fst).Pairwise (· < ·))
    ∧ (∀ (pages : List α) (fetchBytes : α → γ) (completed : List (γ × Nat)),
      completed.Perm (((pages.map fetchBytes).enum).map (fun p => (p.2, p.1))) →
      fetch_images completed = pages.map fetchBytes) := by
  constructor
  · intro pages fetch solve completed hperm
    have hsort : sortByIdx completed = (pages.map (fun p => solve (fetch p))).enum :=
      sortByIdx_perm_enum _ completed hperm
    constructor
    · simp only [download, tryCollect_map_ok]
      rw [hsort, List.enum_map_snd]
    · rw [hsort, List.enum_map_fst]
      exact List.pairwise_lt_range _
  · intro pages fetchBytes completed hperm
    have hsort : List.insertionSort (fun a b => a.2 ≤ b.2) completed
        = ((pages.map fetchBytes).enum).map (fun p => (p.2, p.1)) := by
      apply insertionSort_key_perm_eq (fun p => p.2) _ completed _ hperm
      rw [List.map_map]
      have heq : (Prod.snd ∘ fun p : Nat × γ => (p.2, p.1)) = Prod.fst := rfl
      rw [heq, List.enum_map_fst]
      exact List.pairwise_lt_range _
    rw [fetch_images, hsort, List.map_map]
    have heq : (Prod.fst ∘ fun p : Nat × γ => (p.2, p.1)) = Prod.snd := rfl
    rw [heq, List.enum_map_snd]

/-- Witness for C2: two pages completing in reversed order, for both gathers. -/
theorem c2_witness :
    download ([(1, 42), (0, 22)].map (Except.ok (ε := String)))
        = (.ok [22, 42], [[22, 42]])
      ∧ ((sortByIdx [(1, 42), (0, 22)]).map Prod.fst).Pairwise (· < ·)
      ∧ fetch_images [(42, 1), (22, 0)] = [22, 42] := by
  have h1 := (c2_pipeline_ordering (α := Nat) (β := Nat) (γ := Nat)).1
    [10, 20] (· + 1) (· * 2) [(1, 42), (0, 22)] (by decide)
  have h2 := (c2_pipeline_ordering (α := Nat) (β := Nat) (γ := Nat)).2
    [10, 20] (fun p => 2 * (p + 1)) [(42, 1), (22, 0)] (by decide)
  exact ⟨h1.1, h1.2, h2⟩

/-- C7: if any single page's fetch or solve fails, `download` returns the
first error encountered (in completion order) and the write stage is never
invoked — no page is written anywhere. -/
theorem c7_download_fail_fast {γ : Type} (pre rest : List (Except String (Nat × γ)))
    (e : String) (hpre : ∀ x ∈ pre, ∃ a, x = .ok a) :
    download (pre ++ .error e :: rest) = (.error e, []) := by
  have hcol : tryCollect (pre ++ .error e :: rest) = .error e := by
    induction pre with
    | nil => rfl
    | cons x pre ih =>
      obtain ⟨a, rfl⟩ := hpre x (List.mem_cons_self _ _)
      show (tryCollect (pre ++ .error e :: rest)).map _ = _
      rw [ih (fun y hy => hpre y (List.mem_cons_of_mem _ hy))]
      rfl
  rw [download, hcol]

/-- Witness for C7: page 1 of 3 fails in completion order ok, error, ok. -/
theorem c7_witness :
    download ([Except.ok (0, 5), Except.error "fetch failed", Except.ok (2, 7)])
      = (Except.error "fetch failed", ([] : List (List Nat))) :=
  c7_download_fail_fast [Except.ok (0, 5)] [Except.ok (2, 7)] "fetch failed"
    (fun x hx => ⟨(0, 5), List.mem_singleton.mp hx⟩)

end PipelineModel

namespace RawWriter

/-- Embeds `RawWriter::write`: `create_dir_all` first (its failure propagates via
`?`), then one spawned task per page whose `Result` is collected by
`collect::<Vec<_>>().await` — and the collected `Vec` of per-task results is
discarded; the function then returns `Ok(())` unconditionally. -/
def write {ε : Type} (dirCreate : Except ε Unit) (pageWrites : List (Except ε Unit)) :
    Except ε Unit :=
  match dirCreate with
  | .error e => .error e
  | .ok _ => .ok ()

end RawWriter

namespace ZipWriter

/-- Embeds `ZipWriter::write`: `std::fs::File::create(path)` directly at the final
path (its failure propagates via `?`), then per-page `start_file`/`write_all`
tasks whose `Result`s are collected by `collect::<Vec<_>>().await` and
discarded; the function returns `Ok(())` unconditionally. -/
def write {ε : Type} (fileCreate : Except ε Unit) (pageWrites : List (Except ε Unit)) :
    Except ε Unit :=
  match fileCreate with
  | .error e => .error e
  | .ok _ => .ok ()

end ZipWriter

/-- C8 counterexample: a failing individual page write inside
`RawWriter::write` / `ZipWriter::write` does not make the call return an
error — both still return success, contradicting "the write call returns an
error (it does not return success)". -/
theorem c8_counterexample :
    RawWriter.write (Except.ok ()) [Except.error "page write failed"] = Except.ok ()
      ∧ ZipWriter.write (Except.ok ()) [Except.error "page write failed"] = Except.ok () :=
  ⟨rfl, rfl⟩

/-- C8 (amended): only the failure of creating the output directory
(`RawWriter`) or the archive file (`ZipWriter`) is surfaced; failures of
individual page writes inside the spawned tasks are discarded and `write`
returns success regardless.  Output is created directly at the destination
path (`create_dir_all` / `File::create`), not via a temp-file-and-rename
finalize. -/
theorem c8_writer_swallows_page_errors :
    ∀ (e : String) (pageWrites : List (Except String Unit)),
      RawWriter.write (.error e) pageWrites = .error e
        ∧ RawWriter.write (.ok ()) pageWrites = .ok ()
        ∧ ZipWriter.write (.error e) pageWrites = .error e
        ∧ ZipWriter.write (.ok ()) pageWrites = .ok () :=
  fun e pageWrites => ⟨rfl, rfl, rfl, rfl⟩

namespace GigaData

/-- A raw page as deserialised from the episode JSON, before index
assignment: an image page (height, width, src url) or any other tagged
variant. -/
inductive RawPage where
  | image (height width : Nat) (url : String)
  | other (ty : String)

/-- Embeds `giga::data::Page` after deserialisation: only image pages carry an
index. -/
inductive Page where
  | image (height width : Nat) (url : String) (index : Nat)
  | other (ty : String)

/-- Embeds `MangaPage::index` for giga pages: bails unless the page is an image. -/
def pageIndex : Page → Except String Nat
  | .image _ _ _ index => .ok index
  | .other _ => .error "Page is not an image"

/-- The loop body of `PageVisitor::visit_seq`: walk the raw sequence with a
counter, pushing only image pages and incrementing the counter per image
page pushed. -/
def visitSeqAux : Nat → List RawPage → List Page
  | _, [] => []
  | index, .image h w u :: rest => .image h w u index :: visitSeqAux (index + 1) rest
  | index, .other _ :: rest => visitSeqAux index rest

/-- Embeds `PageVisitor::visit_seq` (used via `deserialize_pages_with_indices`):
filters out non-image pages while assigning dense indices from 0. -/
def visit_seq (pages : List RawPage) : List Page := visitSeqAux 0 pages

/-- Number of image pages of a raw sequence. -/
def countImages : List RawPage → Nat
  | [] => 0
  | .image _ _ _ :: rest => countImages rest + 1
  | .other _ :: rest => countImages rest

lemma visitSeqAux_indices : ∀ (raw : List RawPage) (n : Nat),
    (visitSeqAux n raw).map pageIndex = (List.range' n (countImages raw)).map Except.ok := by
  intro raw
  induction raw with
  | nil => intro n; rfl
  | cons p rest ih =>
    intro n
    cases p with
    | image h w u =>
      show Except.ok n :: (visitSeqAux (n + 1) rest).map pageIndex
        = (List.range' n (countImages rest + 1)).map Except.ok
      rw [ih (n + 1), List.range'_succ]
      rfl
    | other t => exact ih n

end GigaData

namespace FuzData

/-- One entry of `viewer_data.pages` in the ComicFuz protobuf response:
`viewer_page::Content`.  The `encryption_key`/`iv` options are modelled as
plain fields (the source unwraps them). -/
inductive ViewerContent where
  | image (isExtra : Bool) (extraId extraIndex extraSlotId : Nat)
      (imageUrl : String) (encryptionKey iv : String) (imageWidth imageHeight : Nat)
  | webview (url : String)
  | lastPage

/-- Embeds `fuz::data::Page`. -/
inductive Page where
  | image (index : Nat) (imagePath : String) (encryptionKey encryptionIv : String)
      (imageWidth imageHeight : Nat)
  | webView (url : String)
  | last
  | extra (id index slotId : Nat)

/-- Embeds `fuz::Page::new(page, index)`: extra image pages become `Extra`, other
image pages keep the caller-supplied `index`; webview and last-page variants
carry no index. -/
def pageNew (c : ViewerContent) (index : Nat) : Page :=
  match c with
  | .image isExtra eid eidx eslot url key iv w h =>
    if isExtra then .extra eid eidx eslot
    else .image index url key iv w h
  | .webview url => .webView url
  | .lastPage => .last

/-- Embeds `MangaPage::is_image` for fuz pages. -/
def isImage : Page → Bool
  | .image _ _ _ _ _ _ => true
  | _ => false

/-- Embeds `MangaPage::index` for fuz pages: bails unless the page is an image. -/
def pageIndex : Page → Except String Nat
  | .image index _ _ _ _ _ => .ok index
  | _ => .error "Page is not an image"

/-- Whether a raw content entry becomes an image page. -/
def isImageContent : ViewerContent → Bool
  | .image isExtra _ _ _ _ _ _ _ _ => !isExtra
  | _ => false

/-- The pages of `fuz::Episode::from`: `pages.into_iter().enumerate().map(...)`
— every page (image or not) is numbered by its position in the full
sequence. -/
def episodePages (contents : List ViewerContent) : List Page :=
  contents.enum.map (fun p => pageNew p.2 p.1)

/-- The filter at the start of `fuz::Pipeline::download`:
`episode.pages().into_iter().filter(|page| page.is_image())` — no
renumbering happens after the filter. -/
def downloadPages (contents : List ViewerContent) : List Page :=
  (episodePages contents).filter (fun p => isImage p)

lemma fuz_pages_aux : ∀ (l : List (Nat × ViewerContent)),
    ((l.map (fun p => pageNew p.2 p.1)).filter (fun p => isImage p)).map pageIndex
      = (l.filter (fun p => isImageContent p.2)).map (fun p => Except.ok p.1) := by
  intro l
  induction l with
  | nil => rfl
  | cons q rest ih =>
    obtain ⟨n, c⟩ := q
    cases c with
    | image isExtra eid eidx eslot url key iv w h =>
      cases isExtra with
      | true =>
        show ((Page.extra eid eidx eslot :: _).filter _).map pageIndex = _
        rw [List.filter_cons_of_neg (by simp [isImage, isImageContent])]
        show _ = (rest.filter (fun p => isImageContent p.2)).map (fun p => Except.ok p.1)
        exact ih
      | false =>
        show ((Page.image n url key iv w h :: _).filter _).map pageIndex = _
        rw [List.filter_cons_of_pos (by rfl)]
        show Except.ok n :: _ = _
        rw [List.filter_cons_of_pos (by rfl)]
        show _ = Except.ok n :: _
        rw [ih]
    | webview url =>
      show ((Page.webView url :: _).filter _).map pageIndex = _
      rw [List.filter_cons_of_neg (by simp [isImage, isImageContent]), List.filter_cons_of_neg (by simp [isImage, isImageContent])]
      exact ih
    | lastPage =>
      show ((Page.last :: _).filter _).map pageIndex = _
      rw [List.filter_cons_of_neg (by simp [isImage, isImageContent]), List.filter_cons_of_neg (by simp [isImage, isImageContent])]
      exact ih

/-- Concrete counterexample episode: a webview page precedes the only image
page, so the image page enters fetch with index 1, not 0. -/
def cexContents : List ViewerContent :=
  [ViewerContent.webview "u",
    ViewerContent.image false 0 0 0 "p" "k" "v" 100 100]

end FuzData

/-- C9 counterexample: for the fuz episode whose first page is a webview,
the image pages entering the fetch stage carry index 1 — not a dense
ascending range starting at 0. -/
theorem c9_counterexample :
    (FuzData.downloadPages FuzData.cexContents).map FuzData.pageIndex = [Except.ok 1]
      ∧ (List.range (FuzData.downloadPages FuzData.cexContents).length).map
          (Except.ok (ε := String)) = [Except.ok 0]
      ∧ (Except.ok 1 : Except String Nat) ≠ Except.ok 0 := by
  refine ⟨rfl, rfl, fun h => ?_⟩
  injection h with h2
  exact absurd h2 (by decide)

/-- C9 (amended): giga assigns image pages dense ascending indices from 0 at
deserialisation (non-image pages are filtered out there, and the remaining
pages are renumbered densely); fuz numbers every page by its position in the
full original sequence and filters non-image pages before fetch without
renumbering, so the image pages enter fetch with their original positions —
strictly ascending, but starting at 0 only when no non-image page precedes an
image page. -/
theorem c9_page_index_assignment :
    (∀ raw : List GigaData.RawPage,
      (GigaData.visit_seq raw).map GigaData.pageIndex
        = (List.range (GigaData.countImages raw)).map Except.ok)
    ∧ (∀ contents : List FuzData.ViewerContent,
      (FuzData.downloadPages contents).map FuzData.pageIndex
          = (contents.enum.filter (fun p => FuzData.isImageContent p.2)).map
              (fun p => Except.ok p.1)
        ∧ ((contents.enum.filter (fun p => FuzData.isImageContent p.2)).map
            Prod.fst).Pairwise (· < ·)) := by
  constructor
  · intro raw
    rw [GigaData.visit_seq, GigaData.visitSeqAux_indices raw 0, List.range_eq_range']
  · intro contents
    constructor
    · rw [FuzData.downloadPages, FuzData.episodePages, FuzData.fuz_pages_aux]
    · have hsub : (contents.enum.filter (fun p => FuzData.isImageContent p.2)).Sublist
          contents.enum := List.filter_sublist _
      have hpw : (contents.enum.map Prod.fst).Pairwise (· < ·) := by
        rw [List.enum_map_fst]
        exact List.pairwise_lt_range _
      exact List.Pairwise.sublist (List.Sublist.map Prod.fst hsub) hpw

namespace Locator

/-- GigaViewer website family (`giga/viewer.rs`). -/
inductive GigaWebsite where
  | shonenJumpPlus | tonarinoYJ | herosWeb | comicBushi | comicBorder | comicDays
  | comicAction | comicOgyaaa | comicGardo | comicZenon | feelweb | kuragebunch
  | sundayWebry | magcomi
  | custom (host : String)
deriving DecidableEq

/-- ComicFuz website family (`fuz/viewer.rs`). -/
inductive FuzWebsite where
  | comicFuz
deriving DecidableEq

/-- The static `HOST_TO_WEBSITE` registry of `giga/viewer.rs`
(`Website::lookup`). -/
def gigaLookup (host : String) : Option GigaWebsite :=
  if host = "shonenjumpplus.com" then some .shonenJumpPlus
  else if host = "tonarinoyj.jp" then some .tonarinoYJ
  else if host = "viewer.heros-web.com" then some .herosWeb
  else if host = "comicbushi-web.com" then some .comicBushi
  else if host = "comicborder.com" then some .comicBorder
  else if host = "comic-days.com" then some .comicDays
  else if host = "comic-action.com" then some .comicAction
  else if host = "comic-ogyaaa.com" then some .comicOgyaaa
  else if host = "comic-gardo.com" then some .comicGardo
  else if host = "comic-zenon.com" then some .comicZenon
  else if host = "feelweb.jp" then some .feelweb
  else if host = "kuragebunch.com" then some .kuragebunch
  else if host = "www.sunday-webry.com" then some .sundayWebry
  else if host = "magcomi.com" then some .magcomi
  else none

/-- The static `HOST_TO_WEBSITE` registry of `fuz/viewer.rs`. -/
def fuzLookup (host : String) : Option FuzWebsite :=
  if host = "comic-fuz.com" then some .comicFuz
  else none

/-- The capture of an end-anchored `(\d+)$` match with a literal prefix:
because the match must end at the string end and `\d+` cannot cross a
non-digit, the regex matches iff the maximal trailing digit run is nonempty
and is immediately preceded by the literal; the capture is that run. -/
def trailingDigits (cs : List Char) : List Char × List Char :=
  let rev := cs.reverse
  ((rev.dropWhile Char.isDigit).reverse, (rev.takeWhile Char.isDigit).reverse)

/-- Embeds `giga/viewer.rs` `EPISODE_PATH_PATTERN`
(`/episode/(\d+)(?:\.json)?$` applied to the url path): strip an optional
`.json` suffix, then require a nonempty trailing digit run preceded by the
literal `/episode/`. -/
def giga_parse_episode_id (path : String) : Option String :=
  let cs := path.data
  let cs := if ".json".data.isSuffixOf cs then cs.take (cs.length - 5) else cs
  let before := (trailingDigits cs).1
  let digits := (trailingDigits cs).2
  if digits ≠ [] ∧ "/episode/".data.isSuffixOf before then some (String.mk digits)
  else none

/-- Embeds `fuz/viewer.rs` `EPISODE_PATH_PATTERN` (`/manga/viewer/(\d+)$`). -/
def fuz_parse_episode_id (path : String) : Option String :=
  let cs := path.data
  let before := (trailingDigits cs).1
  let digits := (trailingDigits cs).2
  if digits ≠ [] ∧ "/manga/viewer/".data.isSuffixOf before then some (String.mk digits)
  else none

/-- A located site: one of the two website families. -/
inductive Site where
  | giga (w : GigaWebsite)
  | fuz (w : FuzWebsite)
deriving DecidableEq

/-- The locator's failure modes: unknown host (`main.rs` bails
"Website not supported" — the spec's `UnsupportedSite`) or a known host
whose path does not match the family's episode pattern
(`parse_episode_id` returns `None`, surfaced as "Failed to parse episode id"
— the spec's `EpisodeIdNotFound`). -/
inductive LocateError where
  | unsupportedSite
  | episodeIdNotFound
deriving DecidableEq

/-- The locator, as dispatched by `main.rs`: look the host up in the giga
registry first, then the fuz registry; on a hit, the matched pipeline's
`parse_episode_id` applies that family's `EPISODE_PATH_PATTERN` to the url
path.  No episode id is produced on any failure path. -/
def locate (host path : String) : Except LocateError (Site × String) :=
  match gigaLookup host with
  | some w =>
    match giga_parse_episode_id path with
    | some id => .ok (.giga w, id)
    | none => .error .episodeIdNotFound
  | none =>
    match fuzLookup host with
    | some w =>
      match fuz_parse_episode_id path with
      | some id => .ok (.fuz w, id)
      | none => .error .episodeIdNotFound
    | none => .error .unsupportedSite

end Locator

/-- C10: the locator maps `https://comic-fuz.com/manga/viewer/44994` to
ComicFuz with episode id "44994" and
`https://shonenjumpplus.com/episode/9324103625676410700.json` to
ShonenJumpPlus with id "9324103625676410700"; a url whose host is in neither
static registry yields `UnsupportedSite`, and a known host whose path does
not match the episode pattern yields `EpisodeIdNotFound` — no id is produced. -/
theorem c10_locator :
    Locator.locate "comic-fuz.com" "/manga/viewer/44994"
        = .ok (.fuz .comicFuz, "44994")
      ∧ Locator.locate "shonenjumpplus.com" "/episode/9324103625676410700.json"
        = .ok (.giga .shonenJumpPlus, "9324103625676410700")
      ∧ (∀ host path, Locator.gigaLookup host = none → Locator.fuzLookup host = none →
          Locator.locate host path = .error .unsupportedSite)
      ∧ (∀ host path w, Locator.gigaLookup host = some w →
          Locator.giga_parse_episode_id path = none →
          Locator.locate host path = .error .episodeIdNotFound)
      ∧ (∀ host path w, Locator.gigaLookup host = none →
          Locator.fuzLookup host = some w →
          Locator.fuz_parse_episode_id path = none →
          Locator.locate host path = .error .episodeIdNotFound) := by
  refine ⟨rfl, rfl, ?_, ?_, ?_⟩
  · intro host path h1 h2
    simp only [Locator.locate, h1, h2]
  · intro host path w h1 h2
    simp only [Locator.locate, h1, h2]
  · intro host path w h1 h2 h3
    simp only [Locator.locate, h1, h2, h3]

/-- Witness for C10's error paths at concrete urls. -/
theorem c10_witness :
    Locator.locate "example.com" "/episode/123" = .error .unsupportedSite
      ∧ Locator.locate "shonenjumpplus.com" "/about" = .error .episodeIdNotFound
      ∧ Locator.locate "comic-fuz.com" "/manga/44994" = .error .episodeIdNotFound :=
  ⟨c10_locator.2.2.1 "example.com" "/episode/123" (by decide) (by decide),
    c10_locator.2.2.2.1 "shonenjumpplus.com" "/about" .shonenJumpPlus (by decide) (by decide),
    c10_locator.2.2.2.2 "comic-fuz.com" "/manga/44994" .comicFuz (by decide) (by decide)
      (by decide)⟩
